import Mathlib

/-!
Shallow embedding of vcs-resolve.py: a tool resolving a local path inside a
VCS working copy into a provider-specific web URL.  Python strings are
modelled as lists of characters; each helper mirrors one Python string
operation used by the source, and each resolver function mirrors one
resolver class.
-/

namespace VcsResolve

/-- Python strings are modelled as lists of characters. -/
abbrev Str := List Char

/-- Python `s.lstrip(c)` for a single strip character. -/
def lstripChar (c : Char) (l : Str) : Str := l.dropWhile (fun a => a = c)

/-- Python `s.rstrip(c)` for a single strip character. -/
def rstripChar (c : Char) (l : Str) : Str :=
  (l.reverse.dropWhile (fun a => a = c)).reverse

/-- Python `s.strip(c)` for a single strip character: both ends. -/
def stripChar (c : Char) (l : Str) : Str := rstripChar c (lstripChar c l)

/-- Python `s.strip()` (whitespace on both ends). -/
def stripWs (l : Str) : Str :=
  ((l.dropWhile Char.isWhitespace).reverse.dropWhile Char.isWhitespace).reverse

/-- Python `s.replace(old, new)` for a one-character `old`. -/
def replaceChar (c : Char) (r : Str) (l : Str) : Str :=
  l.flatMap (fun a => if a = c then r else [a])

/-- Python `pat in s`: substring containment. -/
def hasSubstr (pat l : Str) : Bool := l.tails.any (fun t => pat.isPrefixOf t)

/-- Python `os.path.basename`: the part after the last slash. -/
def basename (l : Str) : Str := (l.reverse.takeWhile (fun c => c ≠ '/')).reverse

/-- Python `s.split(c)` for a one-character separator.  The recursion
builds the token list from the tail; the empty list splits to one empty
token, matching Python. -/
def splitOnChar (c : Char) : Str → List Str
  | [] => [[]]
  | a :: t =>
    match splitOnChar c t with
    | [] => [[a]]
    | h :: r => if a = c then [] :: h :: r else (a :: h) :: r

/-- Python `c.join(tokens)` for a one-character separator. -/
def joinChar (c : Char) (ls : List Str) : Str := List.intercalate [c] ls

/-- Uppercase hexadecimal digit, as used by `urllib.parse.quote`. -/
def hexDig (n : Nat) : Char :=
  if n = 0 then '0' else if n = 1 then '1' else if n = 2 then '2'
  else if n = 3 then '3' else if n = 4 then '4' else if n = 5 then '5'
  else if n = 6 then '6' else if n = 7 then '7' else if n = 8 then '8'
  else if n = 9 then '9' else if n = 10 then 'A' else if n = 11 then 'B'
  else if n = 12 then 'C' else if n = 13 then 'D' else if n = 14 then 'E'
  else 'F'

/-- Percent-encoding of one byte, uppercase, as `quote` emits it. -/
def byteHex (b : Nat) : Str := ['%', hexDig (b / 16), hexDig (b % 16)]

/-- UTF-8 bytes of a code point, as `quote` encodes non-ASCII characters. -/
def utf8Bytes (n : Nat) : List Nat :=
  if n < 128 then [n]
  else if n < 2048 then [192 + n / 64, 128 + n % 64]
  else if n < 65536 then [224 + n / 4096, 128 + (n / 64) % 64, 128 + n % 64]
  else [240 + n / 262144, 128 + (n / 4096) % 64, 128 + (n / 64) % 64, 128 + n % 64]

/-- Characters `urllib.parse.quote` leaves unquoted with the default
`safe` argument: ASCII letters, digits, the four always-safe marks,
and the slash. -/
def quoteSafe (c : Char) : Bool :=
  c.isAlpha || c.isDigit || c = '_' || c = '.' || c = '-' || c = '~' || c = '/'

/-- Quoting of one character, as `urllib.parse.quote` does. -/
def quoteChar (c : Char) : Str :=
  if quoteSafe c then [c] else (utf8Bytes c.toNat).flatMap byteHex

/-- Python `urllib.parse.quote(s)` with its default `safe` argument. -/
def pyQuote (l : Str) : Str := l.flatMap quoteChar

/-- Lowercase-hex character class of `Repo.COMMIT_RE`, `[a-f0-9]`. -/
def isHexLower (c : Char) : Bool :=
  (('a' ≤ c) && (c ≤ 'f')) || (('0' ≤ c) && (c ≤ '9'))

/-- `Repo.is_commit`: `re.match` of `[a-f0-9]{7,}` succeeds exactly when the
input starts with at least seven lowercase-hex characters. -/
def isCommit (w : Str) : Bool := 7 ≤ (w.takeWhile isHexLower).length

/-- `Repo.relpath`: strip the toplevel prefix, strip leading slashes, and
map a remaining `.` to the empty string. -/
def relpath (top w : Str) : Str :=
  let w1 := if top.isPrefixOf w then w.drop top.length else w
  let w2 := w1.dropWhile (fun c => c = '/')
  if w2 = ['.'] then [] else w2

/-- The origin URL as parsed by `urllib.parse.urlparse`: the three
components the program reads. -/
structure ParsedUrl where
  scheme : Str
  netloc : Str
  path : Str
deriving DecidableEq

/-- The repository metadata a resolver reads from its `Repo`:
parsed origin, toplevel directory, branch name and (for Mercurial)
changeset id. -/
structure RepoState where
  origin : ParsedUrl
  toplevel : Str
  branch : Str
  changeset : Str
deriving DecidableEq

/-- `GitResolver.can_resolve` for a concrete `HOSTNAME`: the hostname is a
substring of the origin scheme, netloc or path. -/
def gitCanResolve (hostname : Str) (o : ParsedUrl) : Bool :=
  hasSubstr hostname o.scheme || hasSubstr hostname o.netloc ||
    hasSubstr hostname o.path

/-- `BitResolver.can_resolve`: scheme is `bitbucket` or `bb`, or the
hostname occurs in the scheme, netloc or path. -/
def bitCanResolve (hostname : Str) (o : ParsedUrl) : Bool :=
  o.scheme = ("bitbucket".data) || o.scheme = ("bb".data) ||
    hasSubstr hostname o.scheme || hasSubstr hostname o.netloc ||
    hasSubstr hostname o.path

/-- `Kiln.can_resolve`: scheme is `kiln` or `kilnhg.com` occurs in the
netloc. -/
def kilnCanResolve (o : ParsedUrl) : Bool :=
  o.scheme = ("kiln".data) || hasSubstr ("kilnhg.com".data) o.netloc

/-- Python `origin[:-4]` guarded by `origin.endswith('.git')`. -/
def stripGitSuffix (l : Str) : Str :=
  if (".git".data).isSuffixOf l then l.take (l.length - 4) else l

/-- `GitResolver.repo_path`: the origin path with a trailing `.git`
stripped, and everything up to the first colon dropped when
`HOSTNAME + ':'` occurs in it (scp-style origins). -/
def gitRepoPath (hostname : Str) (originPath : Str) : Str :=
  if hasSubstr (hostname ++ [':']) (stripGitSuffix originPath) then
    ((stripGitSuffix originPath).dropWhile (fun c => c ≠ ':')).tail
  else stripGitSuffix originPath

/-- `user` property shared by `GitResolver` and `BitResolver`:
`repo_path.strip('/').split('/')[0]`. -/
def pyUser (rp : Str) : Str := (stripChar '/' rp).takeWhile (fun c => c ≠ '/')

/-- `GitResolver.repo`: `repo_path.strip('/').split('/', 1)[1]`, i.e.
everything after the first slash of the stripped repo path. -/
def pyRepoRest (rp : Str) : Str :=
  ((stripChar '/' rp).dropWhile (fun c => c ≠ '/')).tail

/-- `GitResolver.URL_FMT` filled in: `https://{hostname}/{user}/{repo}`. -/
def gitBase (hostname originPath : Str) : Str :=
  ("https://".data) ++ hostname ++ ("/".data) ++
    pyUser (gitRepoPath hostname originPath) ++ ("/".data) ++
    pyRepoRest (gitRepoPath hostname originPath)

/-- `GitResolver._adjust_lines`: when the path has a `:` suffix, either
rewrite `:` to `LINE_SEP_FROM` and `,` to `LINE_SEP_TO` (when `LINE_SEP`)
or drop the suffix entirely. -/
def adjustLines (sep : Bool) (sfrom sto : Str) (p : Str) : Str :=
  if p.dropWhile (fun c => c ≠ ':') = [] then p
  else if sep then
    p.takeWhile (fun c => c ≠ ':') ++
      replaceChar ',' sto (replaceChar ':' sfrom (p.dropWhile (fun c => c ≠ ':')))
  else p.takeWhile (fun c => c ≠ ':')

/-- The class attributes distinguishing the `GitResolver` subclasses:
hostname, `LINE_SEP`, the two line separators, and the `BLOB_FMT`
template (a function of branch and already-quoted path). -/
structure GitCfg where
  hostname : Str
  lineSep : Bool
  sepFrom : Str
  sepTo : Str
  blobFmt : Str → Str → Str

/-- `GitHub`: default `GitResolver` attributes with hostname
`github.com`; `BLOB_FMT` is `/blob/{branch}/{path}`. -/
def githubCfg : GitCfg where
  hostname := "github.com".data
  lineSep := true
  sepFrom := "#L".data
  sepTo := "-L".data
  blobFmt := fun br p => ("/blob/".data) ++ br ++ ("/".data) ++ p

/-- `YGGitLab`: hostname `gitlab.yougov.net`, `LINE_SEP_TO = '-'`. -/
def yggitlabCfg : GitCfg where
  hostname := "gitlab.yougov.net".data
  lineSep := true
  sepFrom := "#L".data
  sepTo := "-".data
  blobFmt := fun br p => ("/blob/".data) ++ br ++ ("/".data) ++ p

/-- `RocheGitLab`: hostname `code.roche.com`, `LINE_SEP_TO = '-'`;
its `repo_path` override coincides with the inherited one. -/
def rochegitlabCfg : GitCfg where
  hostname := "code.roche.com".data
  lineSep := true
  sepFrom := "#L".data
  sepTo := "-".data
  blobFmt := fun br p => ("/blob/".data) ++ br ++ ("/".data) ++ p

/-- `RocheTFS`: hostname `tfsprod.emea.roche.com`, `LINE_SEP = False`,
`BLOB_FMT` is a query string `?path={path}&version=GB{branch}`. -/
def rochetfsCfg : GitCfg where
  hostname := "tfsprod.emea.roche.com".data
  lineSep := false
  sepFrom := "#L".data
  sepTo := "-L".data
  blobFmt := fun br p => ("?path=".data) ++ p ++ ("&version=GB".data) ++ br

/-- `GitResolver.resolve`: base URL plus the commit part for commit-like
inputs, the blob part for non-empty paths, and nothing for an empty
relative path.  The path is percent-quoted after the line fragment has
been inserted by `_adjust_lines`, exactly as `resolve` does. -/
def gitResolve (cfg : GitCfg) (st : RepoState) (what : Str) : Str :=
  if isCommit what then
    gitBase cfg.hostname st.origin.path ++ ("/commit/".data) ++
      adjustLines cfg.lineSep cfg.sepFrom cfg.sepTo what
  else if adjustLines cfg.lineSep cfg.sepFrom cfg.sepTo (relpath st.toplevel what) ≠ [] then
    gitBase cfg.hostname st.origin.path ++
      cfg.blobFmt st.branch
        (pyQuote (adjustLines cfg.lineSep cfg.sepFrom cfg.sepTo (relpath st.toplevel what)))
  else
    gitBase cfg.hostname st.origin.path

/-- `BitResolver.repo`: second slash-component of the origin path, with a
trailing `.git` stripped. -/
def bbRepo (rp : Str) : Str :=
  let r := (((stripChar '/' rp).dropWhile (fun c => c ≠ '/')).tail).takeWhile
    (fun c => c ≠ '/')
  if (".git".data).isSuffixOf r then r.take (r.length - 4) else r

/-- `BitBucket._split_lines`: split at the first colon; the suffix has its
colons rewritten to `#{basename}-` and its commas to `:`. -/
def bbSplitLines (p : Str) : Str × Str :=
  if p.dropWhile (fun c => c ≠ ':') = [] then (p, [])
  else
    (p.takeWhile (fun c => c ≠ ':'),
      replaceChar ',' (":".data)
        (replaceChar ':' (('#' :: basename (p.takeWhile (fun c => c ≠ ':'))) ++ ['-'])
          (p.dropWhile (fun c => c ≠ ':'))))

/-- `BitBucket.resolve`: `https://bitbucket.org/{user}/{repo}` plus
`/commits/{commit}` or `/src/{changeset}/{path}?at={branch}`, with the
line fragment appended at the very end. -/
def bitbucketResolve (st : RepoState) (what : Str) : Str :=
  if isCommit what then
    ("https://".data) ++ ("bitbucket.org".data) ++ ("/".data) ++
      pyUser st.origin.path ++ ("/".data) ++ bbRepo st.origin.path ++
      ("/commits/".data) ++ (bbSplitLines what).1 ++ (bbSplitLines what).2
  else
    ("https://".data) ++ ("bitbucket.org".data) ++ ("/".data) ++
      pyUser st.origin.path ++ ("/".data) ++ bbRepo st.origin.path ++
      ("/src/".data) ++ st.changeset ++ ("/".data) ++
      (bbSplitLines (relpath st.toplevel what)).1 ++ ("?at=".data) ++ st.branch ++
      (bbSplitLines (relpath st.toplevel what)).2

/-- `RocheBitBucket._split_lines`: colon suffix rewritten with `#` and
`-`. -/
def rbbSplitLines (p : Str) : Str × Str :=
  if p.dropWhile (fun c => c ≠ ':') = [] then (p, [])
  else
    (p.takeWhile (fun c => c ≠ ':'),
      replaceChar ',' ("-".data)
        (replaceChar ':' ("#".data) (p.dropWhile (fun c => c ≠ ':'))))

/-- `RocheBitBucket.repo_type`: `users` when the stripped origin path
starts with `~`, else `projects`. -/
def rbbRepoType (rp : Str) : Str :=
  if ("~".data).isPrefixOf (stripChar '/' rp) then "users".data
  else "projects".data

/-- `RocheBitBucket.user`: `repo_path.strip('/').strip('~').split('/')[0]`. -/
def rbbUser (rp : Str) : Str :=
  (stripChar '~' (stripChar '/' rp)).takeWhile (fun c => c ≠ '/')

/-- `RocheBitBucket.resolve`:
`https://bitbucket.roche.com/stash/{repo_type}/{user}/repos/{repo}` plus
`/commits/{commit}` or `/browse/{path}?at={branch}` (path quoted), with
the line fragment appended at the very end. -/
def rocheBBResolve (st : RepoState) (what : Str) : Str :=
  if isCommit what then
    ("https://".data) ++ ("bitbucket.roche.com".data) ++ ("/stash/".data) ++
      rbbRepoType st.origin.path ++ ("/".data) ++ rbbUser st.origin.path ++
      ("/repos/".data) ++ bbRepo st.origin.path ++
      ("/commits/".data) ++ (rbbSplitLines what).1 ++ (rbbSplitLines what).2
  else
    ("https://".data) ++ ("bitbucket.roche.com".data) ++ ("/stash/".data) ++
      rbbRepoType st.origin.path ++ ("/".data) ++ rbbUser st.origin.path ++
      ("/repos/".data) ++ bbRepo st.origin.path ++
      ("/browse/".data) ++
      pyQuote (rbbSplitLines (relpath st.toplevel what)).1 ++ ("?at=".data) ++
      st.branch ++ (rbbSplitLines (relpath st.toplevel what)).2

/-- `Kiln._split_lines`: colon suffix rewritten with `#` and `-`. -/
def kilnSplitLines (p : Str) : Str × Str :=
  if p.dropWhile (fun c => c ≠ ':') = [] then (p, [])
  else
    (p.takeWhile (fun c => c ≠ ':'),
      replaceChar ',' ("-".data)
        (replaceChar ':' ("#".data) (p.dropWhile (fun c => c ≠ ':'))))

/-- `Kiln._rewrite_hidden_segments`: wrap any `/`-separated token that
strips to `bin` in `%24...%24`. -/
def kilnHidden (p : Str) : Str :=
  joinChar '/'
    ((splitOnChar '/' p).map (fun t =>
      if stripWs t = ("bin".data) then ("%24".data) ++ t ++ ("%24".data) else t))

/-- The path part of `Kiln.get_path`: `History/{commit}` or the
hidden-segment rewrite of `Files/{relpath}`. -/
def kilnPath (st : RepoState) (what : Str) : Str :=
  if isCommit what then ("History/".data) ++ what
  else kilnHidden (("Files/".data) ++ relpath st.toplevel what)

/-- `Kiln.resolve`:
`https://{user}.kilnhg.com/Code/{repo}/{path}?rev={branch}` with the path
quoted and the line fragment appended at the very end. -/
def kilnResolve (st : RepoState) (what : Str) : Str :=
  ("https://".data) ++ (st.origin.netloc.takeWhile (fun c => c ≠ '@')) ++
    (".kilnhg.com/Code/".data) ++ (st.origin.path.dropWhile (fun c => c = '/')) ++
    ("/".data) ++ pyQuote (kilnSplitLines (kilnPath st what)).1 ++
    ("?rev=".data) ++ st.branch ++ (kilnSplitLines (kilnPath st what)).2

/-- The provider classes appearing in `Resolver.get`. -/
inductive Provider where
  | github
  | bitbucket
  | kiln
  | yggitlab
  | rochebitbucket
  | rochegitlab
  | rochetfs
deriving DecidableEq

/-- Each provider's `can_resolve` class method. -/
def canResolve : Provider → ParsedUrl → Bool
  | .github, o => gitCanResolve ("github.com".data) o
  | .bitbucket, o => bitCanResolve ("bitbucket.org".data) o
  | .kiln, o => kilnCanResolve o
  | .yggitlab, o => gitCanResolve ("gitlab.yougov.net".data) o
  | .rochebitbucket, o => bitCanResolve ("bitbucket.roche.com".data) o
  | .rochegitlab, o => gitCanResolve ("code.roche.com".data) o
  | .rochetfs, o => gitCanResolve ("tfsprod.emea.roche.com".data) o

/-- The fixed class list `Resolver.get` iterates over, in source order. -/
def providerTable : List Provider :=
  [.github, .bitbucket, .kiln, .yggitlab, .rochebitbucket, .rochegitlab, .rochetfs]

/-- `Resolver.get`: first provider in the table whose `can_resolve`
accepts the origin; `none` models the `Unknown resolver` ValueError. -/
def resolverGet (o : ParsedUrl) : Option Provider :=
  providerTable.find? (fun p => canResolve p o)

/-- Each provider's `resolve` method. -/
def resolveBy : Provider → RepoState → Str → Str
  | .github => gitResolve githubCfg
  | .bitbucket => bitbucketResolve
  | .kiln => kilnResolve
  | .yggitlab => gitResolve yggitlabCfg
  | .rochebitbucket => rocheBBResolve
  | .rochegitlab => gitResolve rochegitlabCfg
  | .rochetfs => gitResolve rochetfsCfg

/-- The two repository backends `Repo.get` tries, in order. -/
inductive Backend where
  | git
  | hg
deriving DecidableEq

/-- `Repo.get`, given the outcomes of `Git.is_repo()` and `Hg.is_repo()`:
Git first, then Mercurial, else the `Unknown repo` ValueError. -/
def repoGet (what : Str) (gitIs hgIs : Bool) : Except Str Backend :=
  if gitIs then .ok .git
  else if hgIs then .ok .hg
  else .error (("Unknown repo: ".data) ++ what)

/-- The observable effects of `main`: the URL handed to `xdg_open` and the
line printed to stdout. -/
structure MainEffects where
  openedUrl : Str
  stdout : Str
deriving DecidableEq

/-- The positional argument of `main`: `sys.argv[1]` when present, else
the current directory `.`. -/
def mainWhat (argv : List Str) : Str :=
  match argv with
  | _ :: a :: _ => a
  | _ => ".".data

/-- `main`, with the repository resolution abstracted as a function from
the input to the URL: it opens and prints the same resolved URL. -/
def mainRun (argv : List Str) (resolveFn : Str → Str) : MainEffects :=
  { openedUrl := resolveFn (mainWhat argv), stdout := resolveFn (mainWhat argv) }

/-! ### Shared concrete data for witnesses and counterexamples -/

/-- A GitHub-style https origin. -/
def oGithub : ParsedUrl where
  scheme := "https".data
  netloc := "github.com".data
  path := "/user/proj.git".data

/-- An origin whose scheme and netloc match no provider. -/
def oPlain : ParsedUrl where
  scheme := "https".data
  netloc := "example.com".data
  path := "/user/proj".data

/-- Same scheme and netloc as `oPlain`, but the path mentions
`github.com`. -/
def oPathGit : ParsedUrl where
  scheme := "https".data
  netloc := "example.com".data
  path := "/github.com/proj".data

/-- A concrete repository state over `oGithub`. -/
def stGH : RepoState where
  origin := oGithub
  toplevel := "/top".data
  branch := "master".data
  changeset := "abc123x".data

/-- The same repository state, written with different but equal field
expressions. -/
def stGH2 : RepoState where
  origin := oGithub
  toplevel := ("/to".data) ++ ("p".data)
  branch := ("mas".data) ++ ("ter".data)
  changeset := ("abc".data) ++ ("123x".data)

/-- A repository state over a normal-form https origin path
`/{user}/{repo}.git`, used to reason about the URL templates. -/
def mkSt (u r br cs : Str) : RepoState where
  origin := { scheme := "https".data, netloc := "host".data,
              path := '/' :: (u ++ ('/' :: (r ++ (".git".data)))) }
  toplevel := "/top".data
  branch := br
  changeset := cs

/-- A repository state with abstract branch over the `oGithub`-style
origin, with a netloc that also fits the Kiln resolver. -/
def stBr (br : Str) : RepoState where
  origin := { scheme := "https".data, netloc := "team@kilnhg.com".data,
              path := "/user/proj.git".data }
  toplevel := "/top".data
  branch := br
  changeset := "abc123x".data

/-! ### General lemmas about the string helpers -/

theorem isPrefixOf_iff {l m : Str} : l.isPrefixOf m = true ↔ l <+: m := by
  induction l generalizing m with
  | nil => simp [List.isPrefixOf]
  | cons a t ih =>
    cases m with
    | nil => simp [List.isPrefixOf]
    | cons b u =>
      simp [List.isPrefixOf, Bool.and_eq_true, beq_iff_eq, ih, List.cons_prefix_cons]

theorem isPrefixOf_append_self (l m : Str) : l.isPrefixOf (l ++ m) = true :=
  isPrefixOf_iff.mpr (List.prefix_append l m)

theorem isSuffixOf_append_self (l m : Str) : m.isSuffixOf (l ++ m) = true := by
  unfold List.isSuffixOf
  rw [List.reverse_append]
  exact isPrefixOf_append_self m.reverse l.reverse

theorem hasSubstr_eq_false {pat l : Str} {x : Char} (hx : x ∈ pat) (hl : x ∉ l) :
    hasSubstr pat l = false := by
  rw [Bool.eq_false_iff]
  intro hs
  rw [hasSubstr, List.any_eq_true] at hs
  obtain ⟨t, ht, hp⟩ := hs
  rw [List.mem_tails] at ht
  exact hl (ht.subset ((isPrefixOf_iff.mp hp).subset hx))

theorem replaceChar_nil (c : Char) (r : Str) : replaceChar c r [] = [] := rfl

theorem replaceChar_cons (c : Char) (r : Str) (a : Char) (l : Str) :
    replaceChar c r (a :: l) = (if a = c then r else [a]) ++ replaceChar c r l := by
  simp [replaceChar]

theorem replaceChar_append (c : Char) (r : Str) (l m : Str) :
    replaceChar c r (l ++ m) = replaceChar c r l ++ replaceChar c r m := by
  simp [replaceChar]

theorem replaceChar_of_not_mem {c : Char} {l : Str} (r : Str) (h : c ∉ l) :
    replaceChar c r l = l := by
  induction l with
  | nil => rfl
  | cons a t ih =>
    rw [replaceChar_cons]
    rw [List.mem_cons, not_or] at h
    rw [if_neg (fun he => h.1 he.symm), ih h.2]
    rfl

theorem pyQuote_nil : pyQuote [] = [] := rfl

theorem pyQuote_append (l m : Str) : pyQuote (l ++ m) = pyQuote l ++ pyQuote m := by
  simp [pyQuote]

theorem quoteChar_safe {c : Char} (h : quoteSafe c = true) : quoteChar c = [c] := by
  rw [quoteChar, if_pos h]

theorem pyQuote_of_safe {l : Str} (h : ∀ c ∈ l, quoteSafe c = true) :
    pyQuote l = l := by
  induction l with
  | nil => rfl
  | cons a t ih =>
    have ha : quoteChar a = [a] := quoteChar_safe (h a (List.mem_cons_self a t))
    have ht : pyQuote t = t := ih (fun c hc => h c (List.mem_cons_of_mem a hc))
    simp [pyQuote] at ht ⊢
    simp [ha, ht]

theorem digit_safe {c : Char} (h : c.isDigit = true) : quoteSafe c = true := by
  simp [quoteSafe, h]

theorem digit_ne_colon {c : Char} (h : c.isDigit = true) : c ≠ ':' := by
  intro he
  rw [he] at h
  exact absurd h (by decide)

theorem digit_ne_comma {c : Char} (h : c.isDigit = true) : c ≠ ',' := by
  intro he
  rw [he] at h
  exact absurd h (by decide)

theorem digit_ne_slash {c : Char} (h : c.isDigit = true) : c ≠ '/' := by
  intro he
  rw [he] at h
  exact absurd h (by decide)

theorem takeWhile_append_all {p : Char → Bool} {l : Str} (m : Str)
    (h : ∀ a ∈ l, p a = true) :
    (l ++ m).takeWhile p = l ++ m.takeWhile p := by
  induction l with
  | nil => rfl
  | cons a t ih =>
    rw [List.cons_append, List.takeWhile_cons, h a (List.mem_cons_self a t)]
    rw [ih (fun b hb => h b (List.mem_cons_of_mem a hb))]
    rfl

theorem dropWhile_append_all {p : Char → Bool} {l : Str} (m : Str)
    (h : ∀ a ∈ l, p a = true) :
    (l ++ m).dropWhile p = m.dropWhile p := by
  induction l with
  | nil => rfl
  | cons a t ih =>
    rw [List.cons_append, List.dropWhile_cons, h a (List.mem_cons_self a t)]
    exact ih (fun b hb => h b (List.mem_cons_of_mem a hb))

theorem splitOnChar_of_not_mem {c : Char} {l : Str} (h : c ∉ l) :
    splitOnChar c l = [l] := by
  induction l with
  | nil => rfl
  | cons a t ih =>
    rw [List.mem_cons, not_or] at h
    rw [splitOnChar, ih h.2]
    show (if a = c then [[], t] else [a :: t]) = [a :: t]
    exact if_neg (fun he => h.1 he.symm)

theorem dropWhile_eq_self_of_all {p : Char → Bool} {l : Str}
    (h : ∀ a ∈ l, p a = false) : l.dropWhile p = l := by
  cases l with
  | nil => rfl
  | cons a t =>
    rw [List.dropWhile_cons, h a (List.mem_cons_self a t)]
    rfl

theorem stripWs_of_no_ws {l : Str} (h : ∀ a ∈ l, a.isWhitespace = false) :
    stripWs l = l := by
  rw [stripWs, dropWhile_eq_self_of_all h,
    dropWhile_eq_self_of_all (fun a ha => h a (List.mem_reverse.mp ha)),
    List.reverse_reverse]

theorem find?_first {α : Type} (f : α → Bool) :
    ∀ (l : List α) (x : α), l.find? f = some x →
      f x = true ∧ ∃ l₁ l₂, l = l₁ ++ x :: l₂ ∧ ∀ y ∈ l₁, f y = false := by
  intro l
  induction l with
  | nil => intro x h; exact absurd h (by simp)
  | cons a t ih =>
    intro x h
    rw [List.find?_cons] at h
    cases hfa : f a with
    | true =>
      rw [hfa] at h
      have hax : a = x := by injection h
      subst hax
      exact ⟨hfa, [], t, rfl, by intro y hy; exact absurd hy (List.not_mem_nil y)⟩
    | false =>
      rw [hfa] at h
      obtain ⟨hfx, l₁, l₂, hsplit, hall⟩ := ih x h
      refine ⟨hfx, a :: l₁, l₂, by rw [hsplit]; rfl, ?_⟩
      intro y hy
      rcases List.mem_cons.mp hy with hya | hyl
      · rw [hya]; exact hfa
      · exact hall y hyl

theorem digit_not_ws {c : Char} (h : c.isDigit = true) : c.isWhitespace = false := by
  have h1 : ¬(c = ' ') := fun he => by rw [he] at h; exact absurd h (by decide)
  have h2 : ¬(c = '\t') := fun he => by rw [he] at h; exact absurd h (by decide)
  have h3 : ¬(c = '\r') := fun he => by rw [he] at h; exact absurd h (by decide)
  have h4 : ¬(c = '\n') := fun he => by rw [he] at h; exact absurd h (by decide)
  simp [Char.isWhitespace, h1, h2, h3, h4]

theorem dropWhile_cons_neg {p : Char → Bool} {a : Char} (l : Str) (h : p a = false) :
    (a :: l).dropWhile p = a :: l := by
  rw [List.dropWhile_cons, h]
  rfl

theorem stripGitSuffix_append (l : Str) :
    stripGitSuffix (l ++ (".git".data)) = l := by
  rw [stripGitSuffix, if_pos (isSuffixOf_append_self l (".git".data))]
  exact List.take_left' (by simp)

theorem stripChar_slash_eval {u r : Str}
    (hu1 : u ≠ []) (hu2 : ∀ c ∈ u, c ≠ '/')
    (hr1 : r ≠ []) (hr2 : r.getLast? ≠ some '/') :
    stripChar '/' ('/' :: (u ++ ('/' :: r))) = u ++ ('/' :: r) := by
  obtain ⟨a, u2, rfl⟩ := List.exists_cons_of_ne_nil hu1
  have ha : a ≠ '/' := hu2 a (List.mem_cons_self a u2)
  obtain ⟨b, rr, hbr⟩ : ∃ b rr, r.reverse = b :: rr := by
    cases hrev : r.reverse with
    | nil => exact absurd (by rw [← List.reverse_reverse r, hrev]; rfl) hr1
    | cons b rr => exact ⟨b, rr, rfl⟩
  have hb : b ≠ '/' := by
    intro he
    apply hr2
    simp [List.getLast?_eq_head?_reverse, hbr, he]
  have hstep : lstripChar '/' ('/' :: ((a :: u2) ++ ('/' :: r))) =
      (a :: u2) ++ ('/' :: r) := by
    simp [lstripChar, List.dropWhile_cons, ha]
  have h1 : ((a :: u2) ++ ('/' :: r)).reverse =
      b :: (rr ++ ['/'] ++ (a :: u2).reverse) := by
    rw [List.reverse_append, List.reverse_cons, hbr]
    simp [List.append_assoc]
  have hB : rstripChar '/' ((a :: u2) ++ ('/' :: r)) = (a :: u2) ++ ('/' :: r) := by
    rw [rstripChar, h1, dropWhile_cons_neg _ (decide_eq_false hb), ← h1,
      List.reverse_reverse]
  rw [stripChar, hstep, hB]

theorem pyUser_eval {u r : Str}
    (hu1 : u ≠ []) (hu2 : ∀ c ∈ u, c ≠ '/')
    (hr1 : r ≠ []) (hr2 : r.getLast? ≠ some '/') :
    pyUser ('/' :: (u ++ ('/' :: r))) = u := by
  rw [pyUser, stripChar_slash_eval hu1 hu2 hr1 hr2,
    takeWhile_append_all ('/' :: r) (fun a ha => decide_eq_true (hu2 a ha)),
    show (('/' :: r).takeWhile (fun c => c ≠ '/')) = [] from rfl,
    List.append_nil]

theorem pyRepoRest_eval {u r : Str}
    (hu1 : u ≠ []) (hu2 : ∀ c ∈ u, c ≠ '/')
    (hr1 : r ≠ []) (hr2 : r.getLast? ≠ some '/') :
    pyRepoRest ('/' :: (u ++ ('/' :: r))) = r := by
  rw [pyRepoRest, stripChar_slash_eval hu1 hu2 hr1 hr2,
    dropWhile_append_all ('/' :: r) (fun a ha => decide_eq_true (hu2 a ha))]
  rfl

theorem gitRepoPath_eval (host : Str) {u r : Str}
    (hu1 : u ≠ []) (hu2 : ∀ c ∈ u, c ≠ '/')
    (hr1 : r ≠ []) (hr2 : r.getLast? ≠ some '/')
    (hcu : ':' ∉ u) (hcr : ':' ∉ r) :
    gitRepoPath host ('/' :: (u ++ ('/' :: (r ++ (".git".data))))) =
      '/' :: (u ++ ('/' :: r)) := by
  have hpath : ('/' :: (u ++ ('/' :: (r ++ (".git".data))))) =
      ('/' :: (u ++ ('/' :: r))) ++ (".git".data) := by
    simp [List.append_assoc]
  have hstrip : stripGitSuffix ('/' :: (u ++ ('/' :: (r ++ (".git".data))))) =
      '/' :: (u ++ ('/' :: r)) := by
    rw [hpath, stripGitSuffix_append]
  have hnc : ':' ∉ ('/' :: (u ++ ('/' :: r))) := by
    intro hm
    rcases List.mem_cons.mp hm with h | hm2
    · exact absurd h (by decide)
    · rcases List.mem_append.mp hm2 with h | hm3
      · exact hcu h
      · rcases List.mem_cons.mp hm3 with h | h
        · exact absurd h (by decide)
        · exact hcr h
  have hsub : hasSubstr (host ++ [':']) ('/' :: (u ++ ('/' :: r))) = false :=
    hasSubstr_eq_false (by simp) hnc
  rw [gitRepoPath, hstrip, hsub]
  simp

theorem gitBase_eval (host : Str) {u r : Str}
    (hu1 : u ≠ []) (hu2 : ∀ c ∈ u, c ≠ '/')
    (hr1 : r ≠ []) (hr2 : r.getLast? ≠ some '/')
    (hcu : ':' ∉ u) (hcr : ':' ∉ r) :
    gitBase host ('/' :: (u ++ ('/' :: (r ++ (".git".data))))) =
      ("https://".data) ++ host ++ ('/' :: (u ++ ('/' :: r))) := by
  rw [gitBase, gitRepoPath_eval host hu1 hu2 hr1 hr2 hcu hcr,
    pyUser_eval hu1 hu2 hr1 hr2, pyRepoRest_eval hu1 hu2 hr1 hr2]
  simp [List.append_assoc]

theorem gitResolve_empty (cfg : GitCfg) (st : RepoState) (w : Str)
    (h1 : isCommit w = false) (h2 : relpath st.toplevel w = []) :
    gitResolve cfg st w = gitBase cfg.hostname st.origin.path := by
  rw [gitResolve, h1, h2]
  simp [adjustLines]

theorem dropWhile_slash_head (l : Str) :
    (l.dropWhile (fun c => c = '/')).head? ≠ some '/' := by
  induction l with
  | nil => simp
  | cons a t ih =>
    rw [List.dropWhile_cons]
    by_cases h : a = '/'
    · rw [h]
      simpa using ih
    · simp [h]

theorem relpath_dot (t : Str) : relpath t (".".data) = [] := by
  by_cases hp : t.isPrefixOf (".".data) = true
  · rcases isPrefixOf_iff.mp hp with ⟨s, hs⟩
    cases t with
    | nil => simp [relpath, hp]
    | cons a t2 =>
      cases t2 with
      | nil =>
        have h0 := hs
        rw [List.cons_append] at h0
        injection h0 with ha hrest
        subst ha
        simp [relpath, hp]
      | cons b t3 =>
        exfalso
        have hlen := congrArg List.length hs
        simp [List.length_append] at hlen
  · have hp2 : t.isPrefixOf (".".data) = false := Bool.eq_false_iff.mpr hp
    simp [relpath, hp2]

theorem le_takeWhile_of_take {f : Char → Bool} :
    ∀ (n : Nat) (w : Str), (w.take n).length = n → (∀ c ∈ w.take n, f c = true) →
      n ≤ (w.takeWhile f).length := by
  intro n
  induction n with
  | zero => intro w _ _; exact Nat.zero_le _
  | succ m ih =>
    intro w hlen hall
    cases w with
    | nil => simp at hlen
    | cons a t =>
      rw [List.take_succ_cons] at hlen hall
      have hfa : f a = true := hall a (List.mem_cons_self a _)
      rw [List.takeWhile_cons, hfa, if_pos rfl, List.length_cons]
      have hm : m ≤ (t.takeWhile f).length := by
        apply ih
        · simpa using hlen
        · intro c hc
          exact hall c (List.mem_cons_of_mem _ hc)
      omega

theorem relpath_head (t w : Str) : (relpath t w).head? ≠ some '/' := by
  simp only [relpath]
  by_cases hd :
      ((if t.isPrefixOf w then w.drop t.length else w).dropWhile (fun c => c = '/')) = ['.']
  · rw [if_pos hd]
    simp
  · rw [if_neg hd]
    exact dropWhile_slash_head _

/-! ### Line-suffix lemmas used for the per-provider fragment results -/

theorem digits_colon {d : Str} (hd : ∀ c ∈ d, c.isDigit = true) : ':' ∉ d :=
  fun hm => absurd (hd _ hm) (by decide)

theorem digits_comma {d : Str} (hd : ∀ c ∈ d, c.isDigit = true) : ',' ∉ d :=
  fun hm => absurd (hd _ hm) (by decide)

theorem digits_slash {d : Str} (hd : ∀ c ∈ d, c.isDigit = true) : '/' ∉ d :=
  fun hm => absurd (hd _ hm) (by decide)

theorem digits_quote {d : Str} (hd : ∀ c ∈ d, c.isDigit = true) :
    pyQuote d = d :=
  pyQuote_of_safe (fun c hc => digit_safe (hd c hc))

theorem colon_single {d : Str} (x y : Str)
    (h1 : ':' ∉ d) (h2 : ',' ∉ d) (h3 : ',' ∉ y) :
    replaceChar ',' x (replaceChar ':' y (':' :: d)) = y ++ d := by
  rw [replaceChar_cons, if_pos rfl, replaceChar_of_not_mem y h1,
    replaceChar_append, replaceChar_of_not_mem x h3, replaceChar_of_not_mem x h2]

theorem colon_range {d d2 : Str} (x y : Str)
    (h1 : ':' ∉ d) (h2 : ',' ∉ d) (h1b : ':' ∉ d2) (h2b : ',' ∉ d2)
    (h3 : ',' ∉ y) :
    replaceChar ',' x (replaceChar ':' y (':' :: ((d ++ (",".data)) ++ d2))) =
      y ++ d ++ x ++ d2 := by
  rw [replaceChar_cons, if_pos rfl]
  simp only [replaceChar_append]
  rw [replaceChar_of_not_mem y h1, replaceChar_of_not_mem y h1b,
    replaceChar_of_not_mem y (by decide : ':' ∉ (",".data))]
  rw [replaceChar_of_not_mem x h3, replaceChar_of_not_mem x h2,
    replaceChar_of_not_mem x h2b]
  rw [show replaceChar ',' x (",".data) = x ++ ([] : Str) from rfl, List.append_nil]
  simp [List.append_assoc]

theorem splitOnChar_cons_eq {c : Char} {t l : Str} {ls : List Str}
    (h : splitOnChar c t = l :: ls) :
    splitOnChar c (c :: t) = [] :: l :: ls := by
  simp [splitOnChar, h]

theorem splitOnChar_cons_ne {c a : Char} {t l : Str} {ls : List Str}
    (ha : ¬ a = c) (h : splitOnChar c t = l :: ls) :
    splitOnChar c (a :: t) = (a :: l) :: ls := by
  simp [splitOnChar, h, ha]

theorem takeWhile_ne_colon_self {b : Str} (h : ':' ∉ b) :
    b.takeWhile (fun c => c ≠ ':') = b :=
  List.takeWhile_eq_self_iff.mpr
    (fun c hc => decide_eq_true (fun he => h (he ▸ hc)))

theorem dropWhile_ne_colon_nil {b : Str} (h : ':' ∉ b) :
    b.dropWhile (fun c => c ≠ ':') = [] :=
  List.dropWhile_eq_nil_iff.mpr
    (fun c hc => decide_eq_true (fun he => h (he ▸ hc)))

theorem takeWhile_colon_append {b : Str} (m : Str) (h : ':' ∉ b) :
    (b ++ (':' :: m)).takeWhile (fun c => c ≠ ':') = b := by
  rw [takeWhile_append_all (':' :: m)
    (fun a ha => decide_eq_true (show a ≠ ':' from fun he => h (he ▸ ha)))]
  rw [show ((':' :: m).takeWhile (fun c => c ≠ ':')) = [] from rfl, List.append_nil]

theorem dropWhile_colon_append {b : Str} (m : Str) (h : ':' ∉ b) :
    (b ++ (':' :: m)).dropWhile (fun c => c ≠ ':') = ':' :: m := by
  rw [dropWhile_append_all (':' :: m)
    (fun a ha => decide_eq_true (show a ≠ ':' from fun he => h (he ▸ ha)))]
  rfl

theorem isCommit_append_colon (b m : Str) :
    isCommit (b ++ (':' :: m)) = isCommit b := by
  rw [isCommit, isCommit, List.takeWhile_append]
  by_cases hall : (b.takeWhile isHexLower).length = b.length
  · rw [if_pos hall]
    rw [show ((':' :: m).takeWhile isHexLower) = [] from rfl, List.append_nil, hall]
  · rw [if_neg hall]

theorem relpath_top_id {x : Str} (hx1 : x ≠ []) (hxh : x.head? ≠ some '/')
    (hxd : x ≠ ('.' :: [])) :
    relpath ("/top".data) x = x := by
  obtain ⟨a, t, rfl⟩ := List.exists_cons_of_ne_nil hx1
  have ha : a ≠ '/' := fun he => hxh (by rw [he]; rfl)
  have hpre : ("/top".data).isPrefixOf (a :: t) = false := by
    rw [Bool.eq_false_iff]
    intro hb
    have hp := isPrefixOf_iff.mp hb
    rw [show ("/top".data) = ('/' :: ("top".data)) from rfl,
      List.cons_prefix_cons] at hp
    exact ha hp.1.symm
  simp only [relpath, hpre, Bool.false_eq_true, if_false]
  rw [dropWhile_cons_neg _ (decide_eq_false ha), if_neg hxd]

theorem relpath_top_suffix {b : Str} (m : Str) (hb1 : b ≠ [])
    (hbh : b.head? ≠ some '/') :
    relpath ("/top".data) (b ++ (':' :: m)) = b ++ (':' :: m) := by
  obtain ⟨a, t, rfl⟩ := List.exists_cons_of_ne_nil hb1
  apply relpath_top_id (by simp)
  · simpa using hbh
  · intro he
    have := congrArg List.length he
    simp at this

theorem adjust_single_b {b d : Str} (sf sto : Str)
    (hb : ':' ∉ b) (h1 : ':' ∉ d) (h2 : ',' ∉ d) (h3 : ',' ∉ sf) :
    adjustLines true sf sto (b ++ (':' :: d)) = b ++ sf ++ d := by
  rw [adjustLines, dropWhile_colon_append d hb, takeWhile_colon_append d hb,
    if_neg (List.cons_ne_nil ':' d), if_pos rfl, colon_single sto sf h1 h2 h3]
  simp [List.append_assoc]

theorem adjust_range_b {b d d2 : Str} (sf sto : Str)
    (hb : ':' ∉ b) (h1 : ':' ∉ d) (h2 : ',' ∉ d) (h1b : ':' ∉ d2) (h2b : ',' ∉ d2)
    (h3 : ',' ∉ sf) :
    adjustLines true sf sto (b ++ (':' :: (d ++ (',' :: d2)))) =
      b ++ sf ++ d ++ sto ++ d2 := by
  rw [adjustLines, dropWhile_colon_append (d ++ (',' :: d2)) hb,
    takeWhile_colon_append (d ++ (',' :: d2)) hb,
    if_neg (List.cons_ne_nil ':' _), if_pos rfl]
  rw [(by simp : (d ++ (',' :: d2)) = ((d ++ (",".data)) ++ d2))]
  rw [colon_range sto sf h1 h2 h1b h2b h3]
  simp [List.append_assoc]

theorem adjust_none_b {b m : Str} (sf sto : Str) (hb : ':' ∉ b) :
    adjustLines false sf sto (b ++ (':' :: m)) = b := by
  rw [adjustLines, dropWhile_colon_append m hb, takeWhile_colon_append m hb,
    if_neg (List.cons_ne_nil ':' m)]
  rfl

theorem adjust_bare_b {b : Str} (sep : Bool) (sf sto : Str) (hb : ':' ∉ b) :
    adjustLines sep sf sto b = b := by
  rw [adjustLines, dropWhile_ne_colon_nil hb, if_pos rfl]

theorem basename_subset {c : Char} {l : Str} (h : c ∈ basename l) : c ∈ l := by
  rw [basename, List.mem_reverse] at h
  exact List.mem_reverse.mp ((List.takeWhile_prefix (fun c => c ≠ '/')).subset h)

theorem splitOnChar_ne_nil (c : Char) (l : Str) : splitOnChar c l ≠ [] := by
  cases l with
  | nil => simp [splitOnChar]
  | cons a t =>
    rw [splitOnChar]
    cases hs : splitOnChar c t with
    | nil => simp
    | cons h r => by_cases hac : a = c <;> simp [hac]

theorem joinChar_single (c : Char) (x : Str) : joinChar c [x] = x := by
  simp [joinChar, List.intercalate]

theorem joinChar_cons₂ (c : Char) (x y : Str) (r : List Str) :
    joinChar c (x :: y :: r) = x ++ (c :: joinChar c (y :: r)) := by
  simp [joinChar, List.intercalate, List.intersperse_cons₂]

theorem joinChar_splitOnChar (c : Char) : ∀ l : Str, joinChar c (splitOnChar c l) = l := by
  intro l
  induction l with
  | nil => rfl
  | cons a t ih =>
    cases hs : splitOnChar c t with
    | nil => exact absurd hs (splitOnChar_ne_nil c t)
    | cons h r =>
      rw [hs] at ih
      by_cases hac : a = c
      · subst hac
        rw [splitOnChar_cons_eq hs, joinChar_cons₂, ih]
        rfl
      · rw [splitOnChar_cons_ne hac hs]
        cases r with
        | nil =>
          rw [joinChar_single]
          rw [joinChar_single] at ih
          rw [ih]
        | cons h2 r2 =>
          rw [joinChar_cons₂]
          rw [joinChar_cons₂] at ih
          rw [List.cons_append, ih]

theorem map_id_of_forall {f : Str → Str} :
    ∀ (l : List Str), (∀ t ∈ l, f t = t) → l.map f = l := by
  intro l
  induction l with
  | nil => intro _; rfl
  | cons a t ih =>
    intro h
    rw [List.map_cons, h a (List.mem_cons_self a t),
      ih (fun x hx => h x (List.mem_cons_of_mem a hx))]

theorem kilnHidden_id {x : Str}
    (h : ∀ t ∈ splitOnChar '/' x, stripWs t ≠ ("bin".data)) :
    kilnHidden x = x := by
  rw [kilnHidden, map_id_of_forall _ (fun t ht => if_neg (h t ht))]
  exact joinChar_splitOnChar '/' x

theorem splitOnChar_append (c : Char) {m : Str} (hm : c ∉ m) :
    ∀ (x : Str), ∃ pre last, splitOnChar c x = pre ++ [last] ∧
      splitOnChar c (x ++ m) = pre ++ [last ++ m] := by
  intro x
  induction x with
  | nil =>
    refine ⟨[], [], rfl, ?_⟩
    simp [splitOnChar_of_not_mem hm]
  | cons a t ih =>
    obtain ⟨pre, last, h1, h2⟩ := ih
    cases pre with
    | nil =>
      rw [List.nil_append] at h1 h2
      by_cases hac : a = c
      · subst hac
        exact ⟨[[]], last, by simp [splitOnChar_cons_eq h1],
          by rw [List.cons_append, splitOnChar_cons_eq h2]; simp⟩
      · refine ⟨[], a :: last, by simp [splitOnChar_cons_ne hac h1], ?_⟩
        rw [List.cons_append, splitOnChar_cons_ne hac h2]
        simp
    | cons p0 ps =>
      have h1b : splitOnChar c t = p0 :: (ps ++ [last]) := by simpa using h1
      have h2b : splitOnChar c (t ++ m) = p0 :: (ps ++ [last ++ m]) := by simpa using h2
      by_cases hac : a = c
      · subst hac
        exact ⟨[] :: p0 :: ps, last, by rw [splitOnChar_cons_eq h1b]; simp,
          by rw [List.cons_append, splitOnChar_cons_eq h2b]; simp⟩
      · exact ⟨(a :: p0) :: ps, last, by rw [splitOnChar_cons_ne hac h1b]; simp,
          by rw [List.cons_append, splitOnChar_cons_ne hac h2b]; simp⟩

theorem mem_dropWhile_ws {c : Char} (hc : c.isWhitespace = false) :
    ∀ {l : Str}, c ∈ l → c ∈ l.dropWhile Char.isWhitespace := by
  intro l
  induction l with
  | nil => intro h; exact absurd h (List.not_mem_nil c)
  | cons a t ih =>
    intro h
    by_cases ha : a.isWhitespace = true
    · rw [List.dropWhile_cons, if_pos ha]
      rcases List.mem_cons.mp h with he | ht
      · exfalso
        rw [← he, hc] at ha
        exact absurd ha (by decide)
      · exact ih ht
    · rw [List.dropWhile_cons, if_neg ha]
      exact h

theorem mem_stripWs {c : Char} (hc : c.isWhitespace = false) {l : Str}
    (h : c ∈ l) : c ∈ stripWs l := by
  rw [stripWs]
  exact List.mem_reverse.mpr
    (mem_dropWhile_ws hc (List.mem_reverse.mpr (mem_dropWhile_ws hc h)))

theorem stripWs_ne_bin_of_colon {l : Str} (h : ':' ∈ l) :
    stripWs l ≠ ("bin".data) := by
  intro he
  have hmem := mem_stripWs (by decide) h
  rw [he] at hmem
  exact absurd hmem (by decide)

theorem gitStyle_single_b (cfg : GitCfg) (br b d : Str)
    (hsep : cfg.lineSep = true)
    (hblob : cfg.blobFmt = fun x p => ("/blob/".data) ++ x ++ ("/".data) ++ p)
    (hb1 : b ≠ []) (hbc : isCommit b = false) (hbh : b.head? ≠ some '/')
    (hbd : b ≠ ('.' :: [])) (hbcol : ':' ∉ b)
    (h1 : ':' ∉ d) (h2 : ',' ∉ d) (h3 : ',' ∉ cfg.sepFrom) (hq : pyQuote d = d) :
    gitResolve cfg (stBr br) (b ++ (':' :: d)) =
      gitResolve cfg (stBr br) b ++ pyQuote cfg.sepFrom ++ d := by
  rw [gitResolve, gitResolve]
  rw [isCommit_append_colon b d, hbc]
  simp only [Bool.false_eq_true, if_false]
  rw [show relpath (stBr br).toplevel (b ++ (':' :: d)) = (b ++ (':' :: d)) from
      relpath_top_suffix d hb1 hbh,
    show relpath (stBr br).toplevel b = b from relpath_top_id hb1 hbh hbd]
  rw [hsep, adjust_single_b cfg.sepFrom cfg.sepTo hbcol h1 h2 h3,
    adjust_bare_b true cfg.sepFrom cfg.sepTo hbcol]
  rw [if_pos (show b ++ cfg.sepFrom ++ d ≠ ([] : Str) from by simp [hb1]),
    if_pos hb1]
  rw [hblob, pyQuote_append, pyQuote_append, hq]
  simp [List.append_assoc]

theorem gitStyle_range_b (cfg : GitCfg) (br b d d2 : Str)
    (hsep : cfg.lineSep = true)
    (hblob : cfg.blobFmt = fun x p => ("/blob/".data) ++ x ++ ("/".data) ++ p)
    (hb1 : b ≠ []) (hbc : isCommit b = false) (hbh : b.head? ≠ some '/')
    (hbd : b ≠ ('.' :: [])) (hbcol : ':' ∉ b)
    (h1 : ':' ∉ d) (h2 : ',' ∉ d) (h1b : ':' ∉ d2) (h2b : ',' ∉ d2)
    (h3 : ',' ∉ cfg.sepFrom) (hq : pyQuote d = d) (hq2 : pyQuote d2 = d2) :
    gitResolve cfg (stBr br) (b ++ (':' :: (d ++ (',' :: d2)))) =
      gitResolve cfg (stBr br) b ++ pyQuote cfg.sepFrom ++ d ++
        pyQuote cfg.sepTo ++ d2 := by
  rw [gitResolve, gitResolve]
  rw [isCommit_append_colon b (d ++ (',' :: d2)), hbc]
  simp only [Bool.false_eq_true, if_false]
  rw [show relpath (stBr br).toplevel (b ++ (':' :: (d ++ (',' :: d2)))) =
      (b ++ (':' :: (d ++ (',' :: d2)))) from relpath_top_suffix (d ++ (',' :: d2)) hb1 hbh,
    show relpath (stBr br).toplevel b = b from relpath_top_id hb1 hbh hbd]
  rw [hsep, adjust_range_b cfg.sepFrom cfg.sepTo hbcol h1 h2 h1b h2b h3,
    adjust_bare_b true cfg.sepFrom cfg.sepTo hbcol]
  rw [if_pos (show b ++ cfg.sepFrom ++ d ++ cfg.sepTo ++ d2 ≠ ([] : Str) from by simp [hb1]),
    if_pos hb1]
  rw [hblob, pyQuote_append, pyQuote_append, pyQuote_append, pyQuote_append, hq, hq2]
  simp [List.append_assoc]

theorem tfs_suffix_b (br b m : Str)
    (hb1 : b ≠ []) (hbc : isCommit b = false) (hbh : b.head? ≠ some '/')
    (hbd : b ≠ ('.' :: [])) (hbcol : ':' ∉ b) :
    gitResolve rochetfsCfg (stBr br) (b ++ (':' :: m)) =
      gitResolve rochetfsCfg (stBr br) b := by
  rw [gitResolve, gitResolve]
  rw [isCommit_append_colon b m, hbc]
  simp only [Bool.false_eq_true, if_false]
  rw [show relpath (stBr br).toplevel (b ++ (':' :: m)) = (b ++ (':' :: m)) from
      relpath_top_suffix m hb1 hbh,
    show relpath (stBr br).toplevel b = b from relpath_top_id hb1 hbh hbd]
  rw [show rochetfsCfg.lineSep = false from rfl,
    adjust_none_b rochetfsCfg.sepFrom rochetfsCfg.sepTo hbcol,
    adjust_bare_b false rochetfsCfg.sepFrom rochetfsCfg.sepTo hbcol]

theorem bb_split_single_b {b d : Str} (hbcol : ':' ∉ b) (hbcm : ',' ∉ b)
    (h1 : ':' ∉ d) (h2 : ',' ∉ d) :
    bbSplitLines (b ++ (':' :: d)) = (b, (('#' :: basename b) ++ ['-']) ++ d) := by
  have hy : ',' ∉ (('#' :: basename b) ++ ['-']) := by
    intro hm
    rcases List.mem_append.mp hm with hm2 | hm3
    · rcases List.mem_cons.mp hm2 with h | h
      · exact absurd h (by decide)
      · exact hbcm (basename_subset h)
    · rcases List.mem_cons.mp hm3 with h | h
      · exact absurd h (by decide)
      · exact absurd h (List.not_mem_nil ',')
  rw [bbSplitLines, dropWhile_colon_append d hbcol, takeWhile_colon_append d hbcol,
    if_neg (List.cons_ne_nil ':' d)]
  rw [colon_single (":".data) (('#' :: basename b) ++ ['-']) h1 h2 hy]

theorem bb_split_range_b {b d d2 : Str} (hbcol : ':' ∉ b) (hbcm : ',' ∉ b)
    (h1 : ':' ∉ d) (h2 : ',' ∉ d) (h1b : ':' ∉ d2) (h2b : ',' ∉ d2) :
    bbSplitLines (b ++ (':' :: (d ++ (',' :: d2)))) =
      (b, (('#' :: basename b) ++ ['-']) ++ d ++ (":".data) ++ d2) := by
  have hy : ',' ∉ (('#' :: basename b) ++ ['-']) := by
    intro hm
    rcases List.mem_append.mp hm with hm2 | hm3
    · rcases List.mem_cons.mp hm2 with h | h
      · exact absurd h (by decide)
      · exact hbcm (basename_subset h)
    · rcases List.mem_cons.mp hm3 with h | h
      · exact absurd h (by decide)
      · exact absurd h (List.not_mem_nil ',')
  rw [bbSplitLines, dropWhile_colon_append (d ++ (',' :: d2)) hbcol,
    takeWhile_colon_append (d ++ (',' :: d2)) hbcol,
    if_neg (List.cons_ne_nil ':' _)]
  rw [(by simp : (d ++ (',' :: d2)) = ((d ++ (",".data)) ++ d2))]
  rw [colon_range (":".data) (('#' :: basename b) ++ ['-']) h1 h2 h1b h2b hy]

theorem bb_single_b (br b d : Str)
    (hb1 : b ≠ []) (hbc : isCommit b = false) (hbh : b.head? ≠ some '/')
    (hbd : b ≠ ('.' :: [])) (hbcol : ':' ∉ b) (hbcm : ',' ∉ b)
    (h1 : ':' ∉ d) (h2 : ',' ∉ d) :
    bitbucketResolve (stBr br) (b ++ (':' :: d)) =
      bitbucketResolve (stBr br) b ++ (('#' :: basename b) ++ ['-']) ++ d := by
  rw [bitbucketResolve, bitbucketResolve]
  rw [isCommit_append_colon b d, hbc]
  simp only [Bool.false_eq_true, if_false]
  rw [show relpath (stBr br).toplevel (b ++ (':' :: d)) = (b ++ (':' :: d)) from
      relpath_top_suffix d hb1 hbh,
    show relpath (stBr br).toplevel b = b from relpath_top_id hb1 hbh hbd]
  rw [bb_split_single_b hbcol hbcm h1 h2]
  rw [show bbSplitLines b = (b, ([] : Str)) from by
    rw [bbSplitLines, dropWhile_ne_colon_nil hbcol, if_pos rfl]]
  simp [List.append_assoc]

theorem bb_range_b (br b d d2 : Str)
    (hb1 : b ≠ []) (hbc : isCommit b = false) (hbh : b.head? ≠ some '/')
    (hbd : b ≠ ('.' :: [])) (hbcol : ':' ∉ b) (hbcm : ',' ∉ b)
    (h1 : ':' ∉ d) (h2 : ',' ∉ d) (h1b : ':' ∉ d2) (h2b : ',' ∉ d2) :
    bitbucketResolve (stBr br) (b ++ (':' :: (d ++ (',' :: d2)))) =
      bitbucketResolve (stBr br) b ++ (('#' :: basename b) ++ ['-']) ++ d ++
        (":".data) ++ d2 := by
  rw [bitbucketResolve, bitbucketResolve]
  rw [isCommit_append_colon b (d ++ (',' :: d2)), hbc]
  simp only [Bool.false_eq_true, if_false]
  rw [show relpath (stBr br).toplevel (b ++ (':' :: (d ++ (',' :: d2)))) =
      (b ++ (':' :: (d ++ (',' :: d2)))) from
      relpath_top_suffix (d ++ (',' :: d2)) hb1 hbh,
    show relpath (stBr br).toplevel b = b from relpath_top_id hb1 hbh hbd]
  rw [bb_split_range_b hbcol hbcm h1 h2 h1b h2b]
  rw [show bbSplitLines b = (b, ([] : Str)) from by
    rw [bbSplitLines, dropWhile_ne_colon_nil hbcol, if_pos rfl]]
  simp [List.append_assoc]

theorem rbb_split_single_b {b d : Str} (hbcol : ':' ∉ b)
    (h1 : ':' ∉ d) (h2 : ',' ∉ d) :
    rbbSplitLines (b ++ (':' :: d)) = (b, ("#".data) ++ d) := by
  rw [rbbSplitLines, dropWhile_colon_append d hbcol, takeWhile_colon_append d hbcol,
    if_neg (List.cons_ne_nil ':' d)]
  rw [colon_single ("-".data) (("#").data) h1 h2 (by decide)]

theorem rbb_split_range_b {b d d2 : Str} (hbcol : ':' ∉ b)
    (h1 : ':' ∉ d) (h2 : ',' ∉ d) (h1b : ':' ∉ d2) (h2b : ',' ∉ d2) :
    rbbSplitLines (b ++ (':' :: (d ++ (',' :: d2)))) =
      (b, ("#".data) ++ d ++ ("-".data) ++ d2) := by
  rw [rbbSplitLines, dropWhile_colon_append (d ++ (',' :: d2)) hbcol,
    takeWhile_colon_append (d ++ (',' :: d2)) hbcol,
    if_neg (List.cons_ne_nil ':' _)]
  rw [(by simp : (d ++ (',' :: d2)) = ((d ++ (",".data)) ++ d2))]
  rw [colon_range ("-".data) (("#").data) h1 h2 h1b h2b (by decide)]

theorem rbb_single_b (br b d : Str)
    (hb1 : b ≠ []) (hbc : isCommit b = false) (hbh : b.head? ≠ some '/')
    (hbd : b ≠ ('.' :: [])) (hbcol : ':' ∉ b)
    (h1 : ':' ∉ d) (h2 : ',' ∉ d) :
    rocheBBResolve (stBr br) (b ++ (':' :: d)) =
      rocheBBResolve (stBr br) b ++ ("#".data) ++ d := by
  rw [rocheBBResolve, rocheBBResolve]
  rw [isCommit_append_colon b d, hbc]
  simp only [Bool.false_eq_true, if_false]
  rw [show relpath (stBr br).toplevel (b ++ (':' :: d)) = (b ++ (':' :: d)) from
      relpath_top_suffix d hb1 hbh,
    show relpath (stBr br).toplevel b = b from relpath_top_id hb1 hbh hbd]
  rw [rbb_split_single_b hbcol h1 h2]
  rw [show rbbSplitLines b = (b, ([] : Str)) from by
    rw [rbbSplitLines, dropWhile_ne_colon_nil hbcol, if_pos rfl]]
  simp [List.append_assoc]

theorem rbb_range_b (br b d d2 : Str)
    (hb1 : b ≠ []) (hbc : isCommit b = false) (hbh : b.head? ≠ some '/')
    (hbd : b ≠ ('.' :: [])) (hbcol : ':' ∉ b)
    (h1 : ':' ∉ d) (h2 : ',' ∉ d) (h1b : ':' ∉ d2) (h2b : ',' ∉ d2) :
    rocheBBResolve (stBr br) (b ++ (':' :: (d ++ (',' :: d2)))) =
      rocheBBResolve (stBr br) b ++ ("#".data) ++ d ++ ("-".data) ++ d2 := by
  rw [rocheBBResolve, rocheBBResolve]
  rw [isCommit_append_colon b (d ++ (',' :: d2)), hbc]
  simp only [Bool.false_eq_true, if_false]
  rw [show relpath (stBr br).toplevel (b ++ (':' :: (d ++ (',' :: d2)))) =
      (b ++ (':' :: (d ++ (',' :: d2)))) from
      relpath_top_suffix (d ++ (',' :: d2)) hb1 hbh,
    show relpath (stBr br).toplevel b = b from relpath_top_id hb1 hbh hbd]
  rw [rbb_split_range_b hbcol h1 h2 h1b h2b]
  rw [show rbbSplitLines b = (b, ([] : Str)) from by
    rw [rbbSplitLines, dropWhile_ne_colon_nil hbcol, if_pos rfl]]
  simp [List.append_assoc]

theorem kilnHidden_suffix {b m : Str} (hm : '/' ∉ m)
    (hbin : ∀ t ∈ splitOnChar '/' (("Files/".data) ++ b), stripWs t ≠ ("bin".data)) :
    kilnHidden ((("Files/".data) ++ b) ++ (':' :: m)) =
      (("Files/".data) ++ b) ++ (':' :: m) := by
  obtain ⟨pre, last, hx1, hx2⟩ :=
    splitOnChar_append '/' (show '/' ∉ (':' :: m) from by
      intro hmm
      rcases List.mem_cons.mp hmm with h | h
      · exact absurd h (by decide)
      · exact hm h) (("Files/".data) ++ b)
  apply kilnHidden_id
  intro t ht
  rw [hx2] at ht
  rcases List.mem_append.mp ht with hpre | hlast
  · exact hbin t (by rw [hx1]; exact List.mem_append_left _ hpre)
  · rcases List.mem_cons.mp hlast with he | h
    · rw [he]
      exact stripWs_ne_bin_of_colon
        (List.mem_append_right last (List.mem_cons_self ':' m))
    · exact absurd h (List.not_mem_nil t)

theorem kiln_path_suffix_b (br b m : Str)
    (hb1 : b ≠ []) (hbc : isCommit b = false) (hbh : b.head? ≠ some '/')
    (hm : '/' ∉ m)
    (hbin : ∀ t ∈ splitOnChar '/' (("Files/".data) ++ b), stripWs t ≠ ("bin".data)) :
    kilnPath (stBr br) (b ++ (':' :: m)) = (("Files/".data) ++ b) ++ (':' :: m) := by
  rw [kilnPath, isCommit_append_colon b m, hbc]
  simp only [Bool.false_eq_true, if_false]
  rw [show relpath (stBr br).toplevel (b ++ (':' :: m)) = (b ++ (':' :: m)) from
      relpath_top_suffix m hb1 hbh]
  rw [show (("Files/".data) ++ (b ++ (':' :: m))) =
    ((("Files/".data) ++ b) ++ (':' :: m)) from rfl]
  exact kilnHidden_suffix hm hbin

theorem kiln_path_bare_b (br b : Str)
    (hb1 : b ≠ []) (hbc : isCommit b = false) (hbh : b.head? ≠ some '/')
    (hbd : b ≠ ('.' :: []))
    (hbin : ∀ t ∈ splitOnChar '/' (("Files/".data) ++ b), stripWs t ≠ ("bin".data)) :
    kilnPath (stBr br) b = ("Files/".data) ++ b := by
  rw [kilnPath, hbc]
  simp only [Bool.false_eq_true, if_false]
  rw [show relpath (stBr br).toplevel b = b from relpath_top_id hb1 hbh hbd]
  exact kilnHidden_id hbin

theorem kiln_split_single_b {b d : Str} (hbcol : ':' ∉ b)
    (h1 : ':' ∉ d) (h2 : ',' ∉ d) :
    kilnSplitLines ((("Files/".data) ++ b) ++ (':' :: d)) =
      ((("Files/".data) ++ b), ("#".data) ++ d) := by
  have hx : ':' ∉ (("Files/".data) ++ b) := by
    intro hm
    rcases List.mem_append.mp hm with h | h
    · exact absurd h (by decide)
    · exact hbcol h
  rw [kilnSplitLines, dropWhile_colon_append d hx, takeWhile_colon_append d hx,
    if_neg (List.cons_ne_nil ':' d)]
  rw [colon_single ("-".data) (("#").data) h1 h2 (by decide)]

theorem kiln_split_range_b {b d d2 : Str} (hbcol : ':' ∉ b)
    (h1 : ':' ∉ d) (h2 : ',' ∉ d) (h1b : ':' ∉ d2) (h2b : ',' ∉ d2) :
    kilnSplitLines ((("Files/".data) ++ b) ++ (':' :: (d ++ (',' :: d2)))) =
      ((("Files/".data) ++ b), ("#".data) ++ d ++ ("-".data) ++ d2) := by
  have hx : ':' ∉ (("Files/".data) ++ b) := by
    intro hm
    rcases List.mem_append.mp hm with h | h
    · exact absurd h (by decide)
    · exact hbcol h
  rw [kilnSplitLines, dropWhile_colon_append (d ++ (',' :: d2)) hx,
    takeWhile_colon_append (d ++ (',' :: d2)) hx,
    if_neg (List.cons_ne_nil ':' _)]
  rw [(by simp : (d ++ (',' :: d2)) = ((d ++ (",".data)) ++ d2))]
  rw [colon_range ("-".data) (("#").data) h1 h2 h1b h2b (by decide)]

theorem kiln_single_b (br b d : Str)
    (hb1 : b ≠ []) (hbc : isCommit b = false) (hbh : b.head? ≠ some '/')
    (hbd : b ≠ ('.' :: [])) (hbcol : ':' ∉ b)
    (hbin : ∀ t ∈ splitOnChar '/' (("Files/".data) ++ b), stripWs t ≠ ("bin".data))
    (h1 : ':' ∉ d) (h2 : ',' ∉ d) (h3 : '/' ∉ d) :
    kilnResolve (stBr br) (b ++ (':' :: d)) =
      kilnResolve (stBr br) b ++ ("#".data) ++ d := by
  have hx : ':' ∉ (("Files/".data) ++ b) := by
    intro hm
    rcases List.mem_append.mp hm with h | h
    · exact absurd h (by decide)
    · exact hbcol h
  rw [kilnResolve, kilnResolve]
  rw [kiln_path_suffix_b br b d hb1 hbc hbh h3 hbin,
    kiln_path_bare_b br b hb1 hbc hbh hbd hbin]
  rw [kiln_split_single_b hbcol h1 h2]
  rw [show kilnSplitLines (("Files/".data) ++ b) = ((("Files/".data) ++ b), ([] : Str))
    from by rw [kilnSplitLines, dropWhile_ne_colon_nil hx, if_pos rfl]]
  simp [List.append_assoc]

theorem kiln_range_b (br b d d2 : Str)
    (hb1 : b ≠ []) (hbc : isCommit b = false) (hbh : b.head? ≠ some '/')
    (hbd : b ≠ ('.' :: [])) (hbcol : ':' ∉ b)
    (hbin : ∀ t ∈ splitOnChar '/' (("Files/".data) ++ b), stripWs t ≠ ("bin".data))
    (h1 : ':' ∉ d) (h2 : ',' ∉ d) (h1b : ':' ∉ d2) (h2b : ',' ∉ d2)
    (h3 : '/' ∉ d) (h3b : '/' ∉ d2) :
    kilnResolve (stBr br) (b ++ (':' :: (d ++ (',' :: d2)))) =
      kilnResolve (stBr br) b ++ ("#".data) ++ d ++ ("-".data) ++ d2 := by
  have hx : ':' ∉ (("Files/".data) ++ b) := by
    intro hm
    rcases List.mem_append.mp hm with h | h
    · exact absurd h (by decide)
    · exact hbcol h
  have hm : '/' ∉ (d ++ (',' :: d2)) := by
    intro hmm
    rcases List.mem_append.mp hmm with h | hm2
    · exact h3 h
    · rcases List.mem_cons.mp hm2 with h | h
      · exact absurd h (by decide)
      · exact h3b h
  rw [kilnResolve, kilnResolve]
  rw [kiln_path_suffix_b br b (d ++ (',' :: d2)) hb1 hbc hbh hm hbin,
    kiln_path_bare_b br b hb1 hbc hbh hbd hbin]
  rw [kiln_split_range_b hbcol h1 h2 h1b h2b]
  rw [show kilnSplitLines (("Files/".data) ++ b) = ((("Files/".data) ++ b), ([] : Str))
    from by rw [kilnSplitLines, dropWhile_ne_colon_nil hx, if_pos rfl]]
  simp [List.append_assoc]

/-- The hidden-segment carve-out of the amended C6 is real: for the path
`bin`, Kiln wraps the bare path as `%24bin%24` but not the suffixed one,
so the URL for `bin:5` does not extend the URL for `bin`. -/
theorem kiln_bin_not_extension :
    ((kilnResolve (stBr ("master".data)) ("bin".data)).isPrefixOf
      (kilnResolve (stBr ("master".data)) (("bin:5").data))) = false := by
  decide

/-! ### Claim theorems -/

/-- C1: for a fixed provider, `resolve` is a pure function of the origin,
toplevel, branch, changeset and input: equal inputs give equal URL
strings, for every provider in the table. -/
theorem c1_resolve_deterministic (p : Provider) (s1 s2 : RepoState) (w1 w2 : Str)
    (ho : s1.origin = s2.origin) (ht : s1.toplevel = s2.toplevel)
    (hb : s1.branch = s2.branch) (hc : s1.changeset = s2.changeset)
    (hw : w1 = w2) :
    resolveBy p s1 w1 = resolveBy p s2 w2 := by
  cases s1
  cases s2
  dsimp at ho ht hb hc
  subst ho
  subst ht
  subst hb
  subst hc
  subst hw
  rfl

/-- Witness for C1 at a concrete provider, state and input. -/
theorem c1_resolve_deterministic_witness :
    resolveBy Provider.github stGH ("a.py".data) =
      resolveBy Provider.github stGH2 ("a.py".data) :=
  c1_resolve_deterministic Provider.github stGH stGH2 _ _
    (by decide) (by decide) (by decide) (by decide) rfl

/-- C2 counterexample: two origins with equal scheme and netloc for which
`Resolver.get` chooses differently, because `can_resolve` also matches the
hostname against the origin path. -/
theorem c2_counterexample :
    oPlain.scheme = oPathGit.scheme ∧ oPlain.netloc = oPathGit.netloc ∧
    resolverGet oPlain ≠ resolverGet oPathGit := by decide

/-- C2 amended: resolver selection is a function of the origin URL's
scheme, netloc and path together (the provider table also matches
hostnames against the path component). -/
theorem c2_amended_selection_function (o1 o2 : ParsedUrl)
    (hs : o1.scheme = o2.scheme) (hn : o1.netloc = o2.netloc)
    (hp : o1.path = o2.path) :
    resolverGet o1 = resolverGet o2 := by
  cases o1
  cases o2
  dsimp at hs hn hp
  subst hs
  subst hn
  subst hp
  rfl

/-- Witness for the amended C2 at two concrete equal origins. -/
theorem c2_amended_selection_function_witness :
    resolverGet oGithub =
      resolverGet { scheme := ("htt".data) ++ ("ps".data),
                    netloc := ("github".data) ++ (".com".data),
                    path := ("/user".data) ++ ("/proj.git".data) } :=
  c2_amended_selection_function _ _ (by decide) (by decide) (by decide)

/-- C3: `Repo.get` raises the unknown-repository error exactly when
neither backend recognises the directory; Git is tried first, then
Mercurial. -/
theorem c3_repo_get (what : Str) (g h : Bool) :
    ((∃ msg, repoGet what g h = .error msg) ↔ (g = false ∧ h = false)) ∧
    (g = true → repoGet what g h = .ok .git) ∧
    (g = false → h = true → repoGet what g h = .ok .hg) ∧
    repoGet what false false = .error (("Unknown repo: ".data) ++ what) := by
  unfold repoGet
  cases g <;> cases h <;> simp

/-- Witness for C3: Git recognised, so the Git backend is chosen. -/
theorem c3_repo_get_witness : repoGet (".".data) true false = .ok .git :=
  (c3_repo_get (".".data) true false).2.1 rfl

/-- C4: `Resolver.get` fails exactly when no provider in the table can
resolve the origin; otherwise the first matching provider in the fixed
table order is returned. -/
theorem c4_resolver_get (o : ParsedUrl) :
    (resolverGet o = none ↔ ∀ p ∈ providerTable, canResolve p o = false) ∧
    (∀ p, resolverGet o = some p →
      canResolve p o = true ∧
      ∃ l₁ l₂, providerTable = l₁ ++ p :: l₂ ∧ ∀ q ∈ l₁, canResolve q o = false) := by
  constructor
  · rw [resolverGet, List.find?_eq_none]
    constructor
    · intro h p hp
      exact Bool.eq_false_iff.mpr (h p hp)
    · intro h p hp
      rw [h p hp]
      exact Bool.false_ne_true
  · intro p hp
    exact find?_first _ _ _ hp

/-- Witness for C4: the GitHub origin is matched, by the first entry of
the table. -/
theorem c4_resolver_get_witness : canResolve Provider.github oGithub = true :=
  ((c4_resolver_get oGithub).2 Provider.github (by decide)).1

/-- C5: evaluation of the GitHub resolver on a line-suffixed input.  The
code percent-quotes the path after the `#L` fragment has been inserted,
so the produced URL contains `%23L5`, not the `#L5` fragment the spec
describes. -/
theorem c5_github_line_quote_eval :
    gitResolve githubCfg stGH ("a.py:5".data) =
      ("https://github.com/user/proj/blob/master/a.py%23L5".data) ∧
    gitResolve githubCfg stGH ("a.py:5".data) ≠
      ("https://github.com/user/proj/blob/master/a.py#L5".data) ∧
    gitResolve githubCfg stGH ("a.py:3,7".data) =
      ("https://github.com/user/proj/blob/master/a.py%23L3-L7".data) := by
  decide

/-- C6 counterexample: the RocheTFS resolver discards the line suffix
(`LINE_SEP = False`), so the URL for `a.py:3` equals the URL for the bare
path. -/
theorem c6_counterexample :
    gitResolve rochetfsCfg stGH ("a.py:3".data) =
      gitResolve rochetfsCfg stGH ("a.py".data) := by
  decide

/-- C6 amended: every provider in the table except RocheTFS maps an
input `path:N` or `path:N,M` to the URL of the bare path with a
provider-specific fragment appended (for the Git-style resolvers the `#`
of the fragment is percent-quoted into `%23`), for every non-commit,
non-root path: one that is non-empty, is not `.`, does not begin with
`/`, and contains no `:` or `,`, and whose `/`-separated tokens do not
strip to `bin` (Kiln's hidden-segment rewrite fires on the bare path but
not the suffixed one); RocheTFS discards the suffix and resolves
`path:N` and `path:N,M` exactly as the bare path. -/
theorem c6_amended_line_fragments (br b d d2 : Str)
    (hb1 : b ≠ []) (hbc : isCommit b = false) (hbh : b.head? ≠ some '/')
    (hbd : b ≠ ('.' :: [])) (hbcol : ':' ∉ b) (hbcm : ',' ∉ b)
    (hbin : ∀ t ∈ splitOnChar '/' (("Files/".data) ++ b), stripWs t ≠ ("bin".data))
    (hd : ∀ c ∈ d, c.isDigit = true) (hd2 : ∀ c ∈ d2, c.isDigit = true)
    (hne : d ≠ []) (hne2 : d2 ≠ []) :
    (gitResolve githubCfg (stBr br) (b ++ (':' :: d)) =
      gitResolve githubCfg (stBr br) b ++ ("%23L".data) ++ d) ∧
    (gitResolve githubCfg (stBr br) (b ++ (':' :: (d ++ (',' :: d2)))) =
      gitResolve githubCfg (stBr br) b ++ ("%23L".data) ++ d ++
        ("-L".data) ++ d2) ∧
    (gitResolve yggitlabCfg (stBr br) (b ++ (':' :: d)) =
      gitResolve yggitlabCfg (stBr br) b ++ ("%23L".data) ++ d) ∧
    (gitResolve yggitlabCfg (stBr br) (b ++ (':' :: (d ++ (',' :: d2)))) =
      gitResolve yggitlabCfg (stBr br) b ++ ("%23L".data) ++ d ++
        ("-".data) ++ d2) ∧
    (gitResolve rochegitlabCfg (stBr br) (b ++ (':' :: d)) =
      gitResolve rochegitlabCfg (stBr br) b ++ ("%23L".data) ++ d) ∧
    (gitResolve rochegitlabCfg (stBr br) (b ++ (':' :: (d ++ (',' :: d2)))) =
      gitResolve rochegitlabCfg (stBr br) b ++ ("%23L".data) ++ d ++
        ("-".data) ++ d2) ∧
    (bitbucketResolve (stBr br) (b ++ (':' :: d)) =
      bitbucketResolve (stBr br) b ++ (('#' :: basename b) ++ ['-']) ++ d) ∧
    (bitbucketResolve (stBr br) (b ++ (':' :: (d ++ (',' :: d2)))) =
      bitbucketResolve (stBr br) b ++ (('#' :: basename b) ++ ['-']) ++ d ++
        (":".data) ++ d2) ∧
    (rocheBBResolve (stBr br) (b ++ (':' :: d)) =
      rocheBBResolve (stBr br) b ++ ("#".data) ++ d) ∧
    (rocheBBResolve (stBr br) (b ++ (':' :: (d ++ (',' :: d2)))) =
      rocheBBResolve (stBr br) b ++ ("#".data) ++ d ++ ("-".data) ++ d2) ∧
    (kilnResolve (stBr br) (b ++ (':' :: d)) =
      kilnResolve (stBr br) b ++ ("#".data) ++ d) ∧
    (kilnResolve (stBr br) (b ++ (':' :: (d ++ (',' :: d2)))) =
      kilnResolve (stBr br) b ++ ("#".data) ++ d ++ ("-".data) ++ d2) ∧
    (gitResolve rochetfsCfg (stBr br) (b ++ (':' :: d)) =
      gitResolve rochetfsCfg (stBr br) b) ∧
    (gitResolve rochetfsCfg (stBr br) (b ++ (':' :: (d ++ (',' :: d2)))) =
      gitResolve rochetfsCfg (stBr br) b) := by
  have h1 : ':' ∉ d := digits_colon hd
  have h2 : ',' ∉ d := digits_comma hd
  have h1b : ':' ∉ d2 := digits_colon hd2
  have h2b : ',' ∉ d2 := digits_comma hd2
  have h3 : '/' ∉ d := digits_slash hd
  have h3b : '/' ∉ d2 := digits_slash hd2
  have hq : pyQuote d = d := digits_quote hd
  have hq2 : pyQuote d2 = d2 := digits_quote hd2
  refine ⟨?_, ?_, ?_, ?_, ?_, ?_, ?_, ?_, ?_, ?_, ?_, ?_, ?_, ?_⟩
  · exact gitStyle_single_b githubCfg br b d rfl rfl hb1 hbc hbh hbd hbcol
      h1 h2 (by decide) hq
  · exact gitStyle_range_b githubCfg br b d d2 rfl rfl hb1 hbc hbh hbd hbcol
      h1 h2 h1b h2b (by decide) hq hq2
  · exact gitStyle_single_b yggitlabCfg br b d rfl rfl hb1 hbc hbh hbd hbcol
      h1 h2 (by decide) hq
  · exact gitStyle_range_b yggitlabCfg br b d d2 rfl rfl hb1 hbc hbh hbd hbcol
      h1 h2 h1b h2b (by decide) hq hq2
  · exact gitStyle_single_b rochegitlabCfg br b d rfl rfl hb1 hbc hbh hbd hbcol
      h1 h2 (by decide) hq
  · exact gitStyle_range_b rochegitlabCfg br b d d2 rfl rfl hb1 hbc hbh hbd hbcol
      h1 h2 h1b h2b (by decide) hq hq2
  · exact bb_single_b br b d hb1 hbc hbh hbd hbcol hbcm h1 h2
  · exact bb_range_b br b d d2 hb1 hbc hbh hbd hbcol hbcm h1 h2 h1b h2b
  · exact rbb_single_b br b d hb1 hbc hbh hbd hbcol h1 h2
  · exact rbb_range_b br b d d2 hb1 hbc hbh hbd hbcol h1 h2 h1b h2b
  · exact kiln_single_b br b d hb1 hbc hbh hbd hbcol hbin h1 h2 h3
  · exact kiln_range_b br b d d2 hb1 hbc hbh hbd hbcol hbin h1 h2 h1b h2b h3 h3b
  · exact tfs_suffix_b br b d hb1 hbc hbh hbd hbcol
  · exact tfs_suffix_b br b (d ++ (',' :: d2)) hb1 hbc hbh hbd hbcol

/-- Witness for the amended C6 at path `a.py`, branch `master`, lines 3
and 7. -/
theorem c6_amended_line_fragments_witness :
    gitResolve githubCfg (stBr ("master".data)) (("a.py".data) ++ (':' :: ("3".data))) =
      gitResolve githubCfg (stBr ("master".data)) ("a.py".data) ++
        ("%23L".data) ++ ("3".data) :=
  (c6_amended_line_fragments ("master".data) ("a.py".data) ("3".data) ("7".data)
    (by decide) (by decide) (by decide) (by decide) (by decide) (by decide)
    (by decide) (by decide) (by decide) (by decide) (by decide)).1

/-- C8: with no CLI argument `main` resolves the current directory `.`,
and the URL passed to the OS opener is the URL printed to stdout. -/
theorem c8_main_dot_and_same_url (prog : Str) (argv : List Str) (f : Str → Str) :
    mainWhat [prog] = (".".data) ∧
    (mainRun argv f).openedUrl = (mainRun argv f).stdout :=
  ⟨rfl, rfl⟩

/-- C7: for a non-commit, non-empty relative path, the GitHub resolver
fills the fixed template
`https://github.com/{user}/{repo}/blob/{branch}/{path}`, where user and
repo are the first and the remaining slash components of the origin
URL's path after the trailing `.git` is stripped. -/
theorem c7_github_template (u r br cs sch nl : Str)
    (hu1 : u ≠ []) (hu2 : ∀ c ∈ u, c ≠ '/') (hcu : ':' ∉ u)
    (hr1 : r ≠ []) (hr2 : r.getLast? ≠ some '/') (hcr : ':' ∉ r) :
    gitResolve githubCfg
      { origin := { scheme := sch, netloc := nl,
                    path := '/' :: (u ++ ('/' :: (r ++ (".git".data)))) },
        toplevel := "/top".data, branch := br, changeset := cs }
      ("a.py".data) =
    ("https://github.com/".data) ++ u ++ ("/".data) ++ r ++ ("/blob/".data) ++
      br ++ ("/a.py".data) := by
  rw [gitResolve]
  rw [show isCommit ("a.py".data) = false from rfl]
  simp only [Bool.false_eq_true, if_false]
  rw [show relpath ("/top".data) ("a.py".data) = ("a.py".data) from rfl]
  rw [show adjustLines githubCfg.lineSep githubCfg.sepFrom githubCfg.sepTo
    ("a.py".data) = ("a.py".data) from rfl]
  rw [if_pos (by decide : ("a.py".data) ≠ ([] : Str))]
  rw [show gitBase githubCfg.hostname ('/' :: (u ++ ('/' :: (r ++ (".git".data))))) =
        (("https://".data) ++ ("github.com".data) ++ ('/' :: (u ++ ('/' :: r)))) from
      gitBase_eval (("github.com").data) hu1 hu2 hr1 hr2 hcu hcr]
  rw [show pyQuote ("a.py".data) = ("a.py".data) from rfl]
  simp only [githubCfg]
  simp only [List.cons_append, List.nil_append, List.append_assoc]

/-- Witness for C7 at a concrete user, repo, branch and origin. -/
theorem c7_github_template_witness :
    gitResolve githubCfg
      { origin := { scheme := "https".data, netloc := "github.com".data,
                    path := '/' :: (("user".data) ++
                      ('/' :: (("proj".data) ++ (".git".data)))) },
        toplevel := "/top".data, branch := "master".data,
        changeset := "abc123x".data }
      ("a.py".data) =
    ("https://github.com/".data) ++ ("user".data) ++ ("/".data) ++ ("proj".data) ++
      ("/blob/".data) ++ ("master".data) ++ ("/a.py".data) :=
  c7_github_template ("user".data) ("proj".data) ("master".data) ("abc123x".data)
    ("https".data) ("github.com".data)
    (by decide) (by decide) (by decide) (by decide) (by decide) (by decide)

/-- C9: commit detection is a prefix test on the raw input: an input is
classified as a commit exactly when its first seven characters exist and
are all lowercase hex, so `deadbeef.txt` resolves to the provider's
commit URL even though it looks like a file name, and an input without
seven leading hex characters never does. -/
theorem c9_commit_prefix_test :
    (∀ w : Str, isCommit w = true ↔
      ((w.take 7).length = 7 ∧ ∀ c ∈ w.take 7, isHexLower c = true)) ∧
    isCommit ("deadbeef.txt".data) = true ∧
    gitResolve githubCfg stGH ("deadbeef.txt".data) =
      ("https://github.com/user/proj/commit/deadbeef.txt".data) ∧
    isCommit ("deadbe".data) = false ∧
    isCommit ("x1234567".data) = false := by
  refine ⟨?_, by decide, by decide, by decide, by decide⟩
  intro w
  constructor
  · intro h
    rw [isCommit, decide_eq_true_eq] at h
    have hle : (w.takeWhile isHexLower).length ≤ w.length :=
      (List.takeWhile_sublist isHexLower).length_le
    constructor
    · simp only [List.length_take]
      omega
    · intro c hc
      rw [← List.takeWhile_append_dropWhile isHexLower w] at hc
      rw [List.take_append_of_le_length (by omega)] at hc
      exact List.mem_takeWhile_imp (List.take_subset _ _ hc)
  · intro hpair
    rw [isCommit, decide_eq_true_eq]
    exact le_takeWhile_of_take 7 w hpair.1 hpair.2

/-- Witness for C9: the prefix test classifies a commit-shaped input. -/
theorem c9_commit_prefix_test_witness : isCommit ("0123abc.rs".data) = true :=
  (c9_commit_prefix_test.1 (("0123abc.rs").data)).mpr (by decide)

/-- C10: `relpath` maps `.` to the empty string and never returns a
string starting with `/`, and on an empty relative path (input `.` or the
toplevel itself) each Git-style resolver returns exactly
`https://{hostname}/{user}/{repo}` with no blob part. -/
theorem c10_root_resolution (u r br cs : Str)
    (hu1 : u ≠ []) (hu2 : ∀ c ∈ u, c ≠ '/') (hcu : ':' ∉ u)
    (hr1 : r ≠ []) (hr2 : r.getLast? ≠ some '/') (hcr : ':' ∉ r) :
    (∀ t : Str, relpath t (".".data) = []) ∧
    (∀ t w : Str, (relpath t w).head? ≠ some '/') ∧
    (gitResolve githubCfg (mkSt u r br cs) (".".data) =
      ("https://".data) ++ ("github.com".data) ++ ("/".data) ++ u ++ ("/".data) ++ r) ∧
    (gitResolve githubCfg (mkSt u r br cs) ("/top".data) =
      ("https://".data) ++ ("github.com".data) ++ ("/".data) ++ u ++ ("/".data) ++ r) ∧
    (gitResolve yggitlabCfg (mkSt u r br cs) (".".data) =
      ("https://".data) ++ ("gitlab.yougov.net".data) ++ ("/".data) ++ u ++ ("/".data) ++ r) ∧
    (gitResolve yggitlabCfg (mkSt u r br cs) ("/top".data) =
      ("https://".data) ++ ("gitlab.yougov.net".data) ++ ("/".data) ++ u ++ ("/".data) ++ r) ∧
    (gitResolve rochegitlabCfg (mkSt u r br cs) (".".data) =
      ("https://".data) ++ ("code.roche.com".data) ++ ("/".data) ++ u ++ ("/".data) ++ r) ∧
    (gitResolve rochegitlabCfg (mkSt u r br cs) ("/top".data) =
      ("https://".data) ++ ("code.roche.com".data) ++ ("/".data) ++ u ++ ("/".data) ++ r) ∧
    (gitResolve rochetfsCfg (mkSt u r br cs) (".".data) =
      ("https://".data) ++ ("tfsprod.emea.roche.com".data) ++ ("/".data) ++ u ++ ("/".data) ++ r) ∧
    (gitResolve rochetfsCfg (mkSt u r br cs) ("/top".data) =
      ("https://".data) ++ ("tfsprod.emea.roche.com".data) ++ ("/".data) ++ u ++ ("/".data) ++ r) := by
  refine ⟨relpath_dot, relpath_head, ?_, ?_, ?_, ?_, ?_, ?_, ?_, ?_⟩
  · exact (gitResolve_empty githubCfg (mkSt u r br cs) (".".data) rfl rfl).trans
      ((gitBase_eval (("github.com").data) hu1 hu2 hr1 hr2 hcu hcr).trans
        (by simp [List.append_assoc]))
  · exact (gitResolve_empty githubCfg (mkSt u r br cs) ("/top".data) rfl rfl).trans
      ((gitBase_eval (("github.com").data) hu1 hu2 hr1 hr2 hcu hcr).trans
        (by simp [List.append_assoc]))
  · exact (gitResolve_empty yggitlabCfg (mkSt u r br cs) (".".data) rfl rfl).trans
      ((gitBase_eval (("gitlab.yougov.net").data) hu1 hu2 hr1 hr2 hcu hcr).trans
        (by simp [List.append_assoc]))
  · exact (gitResolve_empty yggitlabCfg (mkSt u r br cs) ("/top".data) rfl rfl).trans
      ((gitBase_eval (("gitlab.yougov.net").data) hu1 hu2 hr1 hr2 hcu hcr).trans
        (by simp [List.append_assoc]))
  · exact (gitResolve_empty rochegitlabCfg (mkSt u r br cs) (".".data) rfl rfl).trans
      ((gitBase_eval (("code.roche.com").data) hu1 hu2 hr1 hr2 hcu hcr).trans
        (by simp [List.append_assoc]))
  · exact (gitResolve_empty rochegitlabCfg (mkSt u r br cs) ("/top".data) rfl rfl).trans
      ((gitBase_eval (("code.roche.com").data) hu1 hu2 hr1 hr2 hcu hcr).trans
        (by simp [List.append_assoc]))
  · exact (gitResolve_empty rochetfsCfg (mkSt u r br cs) (".".data) rfl rfl).trans
      ((gitBase_eval (("tfsprod.emea.roche.com").data) hu1 hu2 hr1 hr2 hcu hcr).trans
        (by simp [List.append_assoc]))
  · exact (gitResolve_empty rochetfsCfg (mkSt u r br cs) ("/top".data) rfl rfl).trans
      ((gitBase_eval (("tfsprod.emea.roche.com").data) hu1 hu2 hr1 hr2 hcu hcr).trans
        (by simp [List.append_assoc]))

/-- Witness for C10 at a concrete user and repo. -/
theorem c10_root_resolution_witness :
    gitResolve githubCfg (mkSt ("user".data) ("proj".data) ("master".data) ("abc".data))
      (".".data) =
    ("https://".data) ++ ("github.com".data) ++ ("/".data) ++ ("user".data) ++
      ("/".data) ++ ("proj".data) :=
  (c10_root_resolution ("user".data) ("proj".data) ("master".data) ("abc".data)
    (by decide) (by decide) (by decide) (by decide) (by decide) (by decide)).2.2.1

end VcsResolve
